import Mathlib

/-!
Verification of the ProTKD scoring core (app.py).

Shallow embedding of the match aggregate and its operations. Time instants
(Python monotonic and wall-clock floats) are modelled by rationals; Python
ints are Lean Int; dictionaries keyed by "red"/"blue" are a two-field
structure; the referee roster (an insertion-ordered dict keyed by socket
id) is an association list; Python sets of socket ids are duplicate-free
lists. Handlers are pure state transformers returning the next machine
state together with the list of messages emitted on the broadcast channel.
Each handler follows exactly one handler of app.py; the match-code lookup
step of every handler is dropped because the model is a single match
aggregate (the registry lookup never alters the aggregate).
-/

set_option maxHeartbeats 1000000

namespace ProTKD

/-- The two competitor colors used as dictionary keys in app.py. -/
inductive Color
  | red
  | blue
deriving DecidableEq

/-- The opposite color (the value computed inline in app.py as
red if color == blue else blue). -/
def Color.other : Color → Color
  | .red => .blue
  | .blue => .red

/-- A pair of Int values keyed by color: models the Python dicts
scores, round_wins, gamjeom, ivr_available. -/
structure ColorPair where
  red : Int
  blue : Int
deriving DecidableEq

def ColorPair.get (p : ColorPair) : Color → Int
  | .red => p.red
  | .blue => p.blue

def ColorPair.set (p : ColorPair) : Color → Int → ColorPair
  | .red, v => { p with red := v }
  | .blue, v => { p with blue := v }

/-- Match status strings of app.py: connecting, running, paused, break, over.
The break status is named brk here because of the Lean keyword. -/
inductive Status
  | connecting
  | running
  | paused
  | brk
  | over
deriving DecidableEq

/-- Parse an incoming color string the way app.py validates it with
color in ("red", "blue"). -/
def parseColor (s : String) : Option Color :=
  if s = "red" then some .red else if s = "blue" then some .blue else none

/-- One referee roster entry: remotes[sid] in app.py. -/
structure Remote where
  name : String
  connectedAt : ℚ
  lastActivityMono : Option ℚ
  tested : Bool
deriving DecidableEq

/-- One buffered referee vote: an element of vote_buffer in app.py.
Votes are only appended after the color has been validated, so the color
is stored as a Color. -/
structure Vote where
  sid : String
  color : Color
  points : Int
  tsMono : ℚ
deriving DecidableEq

/-- One undo-stack entry of app.py. The "by" list attached to quorum
awards is not stored because operator_undo never reads it. -/
inductive HistEntry
  | score (color : Color) (delta : Int)
  | gamjeom (color : Color)
deriving DecidableEq

/-- The pending IVR challenge: ivr_pending in app.py. The votes field is
the Python set of accepting socket ids, as a duplicate-free list. -/
structure IvrPending where
  color : Color
  votes : List String
deriving DecidableEq

/-- The authoritative timer record of app.py. remaining is valid when not
running; while running the true remaining is derived from
lastStartedMono. -/
structure Timer where
  running : Bool
  remaining : ℚ
  lastStartedMono : Option ℚ
deriving DecidableEq

/-- The full match aggregate: one entry of the machines table in app.py. -/
structure Machine where
  numRefsCfg : Int
  roundTime : Int
  breakTime : Int
  matchPassword : String
  category : String
  redName : String
  blueName : String
  roundsToWin : Int
  ptgGap : Int
  status : Status
  round : Int
  roundWins : ColorPair
  scores : ColorPair
  gamjeom : ColorPair
  ivrAvailable : ColorPair
  ivrPending : Option IvrPending
  remotes : List (String × Remote)
  voteBuffer : List Vote
  timer : Timer
  history : List HistEntry
deriving DecidableEq

/-- Messages emitted to the broadcast channel (socketio.emit calls). -/
inductive Emit
  | stateMsg
  | timerMsg
  | remoteStatus
  | toast (msg : String)
  | matchOverMsg (winner : Color)
  | roundOverMsg (winner : Option Color)
  | ivrOverlay (color : Color)
  | ivrVotes (count : Nat)
  | ivrResult (accepted : Bool) (color : Color)
  | refScoreApplied (color : Color) (points : Int) (byCount : Nat)
  | forceSetup
  | proceedMain
  | refPressTrace (color : Color) (points : Int)
  | refJoinResult (ok : Bool)
deriving DecidableEq

/-- SCORING_WINDOW = 1.3 seconds. -/
def SCORING_WINDOW : ℚ := 13 / 10

/-- quorum_required: max(1, ceil(len(remotes) / 2)). For a natural n,
ceil(n / 2) = (n + 1) / 2 in truncated Nat division. -/
def quorum_required (m : Machine) : Nat :=
  max 1 ((m.remotes.length + 1) / 2)

/-- new_machine_state with the fallbacks app.py applies to its arguments
(empty password falls back to "1234", names fall back and are cut to 24
characters, rounds_to_win = 2, ptg_gap = 12, status connecting, both IVR
budgets 1, timer stopped at the full round time). The created_at wall
instant is passed in. -/
def new_machine_state (numRefs roundTime breakTime : Int)
    (matchPassword category redName blueName : String) : Machine :=
  { numRefsCfg := numRefs
    roundTime := roundTime
    breakTime := breakTime
    matchPassword := if matchPassword = "" then "1234" else matchPassword
    category := category
    redName := (if redName = "" then "RED" else redName).take 24
    blueName := (if blueName = "" then "BLUE" else blueName).take 24
    roundsToWin := 2
    ptgGap := 12
    status := .connecting
    round := 1
    roundWins := ⟨0, 0⟩
    scores := ⟨0, 0⟩
    gamjeom := ⟨0, 0⟩
    ivrAvailable := ⟨1, 1⟩
    ivrPending := none
    remotes := []
    voteBuffer := []
    timer := { running := false, remaining := (roundTime : ℚ), lastStartedMono := none }
    history := [] }

/-- push_history: append and keep only the newest 128 entries. -/
def push_history (m : Machine) (a : HistEntry) : Machine :=
  let h := m.history ++ [a]
  { m with history := if h.length > 128 then h.drop (h.length - 128) else h }

/-- The payload produced by timer_payload in app.py. -/
structure TimerPayload where
  running : Bool
  remaining : ℚ
  lastStarted : Option ℚ
deriving DecidableEq

/-- timer_payload: a pure projection of the timer at monotonic instant now
and wall-clock instant noww. It reads the machine and builds a payload;
it returns no machine, so in this embedding its purity is by construction,
matching the Python function which only reads m. -/
def timer_payload (now noww : ℚ) (m : Machine) : TimerPayload :=
  match m.timer.running, m.timer.lastStartedMono with
  | true, some s =>
      let elapsed := now - s
      { running := true, remaining := max 0 (m.timer.remaining - elapsed),
        lastStarted := some (noww - elapsed) }
  | _, _ => { running := false, remaining := m.timer.remaining, lastStarted := none }

/-- The timer transition of timer_start: no-op when already running. -/
def Timer.startAt (now : ℚ) (t : Timer) : Timer :=
  if t.running then t else { t with running := true, lastStartedMono := some now }

/-- timer_start at monotonic instant now. -/
def timer_start (now : ℚ) (m : Machine) : Machine :=
  { m with timer := m.timer.startAt now }

/-- The timer transition of timer_pause: freeze the derived remaining.
When the timer is not running (or carries no start instant) nothing
changes. -/
def Timer.pauseAt (now : ℚ) (t : Timer) : Timer :=
  match t.running, t.lastStartedMono with
  | true, some s =>
      { running := false, remaining := max 0 (t.remaining - (now - s)), lastStartedMono := none }
  | _, _ => t

/-- timer_pause at monotonic instant now. -/
def timer_pause (now : ℚ) (m : Machine) : Machine :=
  { m with timer := m.timer.pauseAt now }

/-- timer_reset_round: stopped at the full round duration. -/
def timer_reset_round (m : Machine) : Machine :=
  { m with timer := { running := false, remaining := (m.roundTime : ℚ), lastStartedMono := none } }

/-- timer_reset_break: stopped at the full break duration. -/
def timer_reset_break (m : Machine) : Machine :=
  { m with timer := { running := false, remaining := (m.breakTime : ℚ), lastStartedMono := none } }

/-- finalize_round: add a round win, pause the timer, zero scores and
penalties, then either end the match (round_wins >= rounds_to_win) or
enter break with the break timer reset and auto-started. Callers only
pass validated colors, so the dead string-validation guard of app.py is
not reproduced. -/
def finalize_round (now : ℚ) (m : Machine) (w : Color) : Machine × List Emit :=
  let m := { m with roundWins := m.roundWins.set w (m.roundWins.get w + 1) }
  let m := timer_pause now m
  let m := { m with scores := ⟨0, 0⟩, gamjeom := ⟨0, 0⟩ }
  if m.roundWins.get w ≥ m.roundsToWin then
    ({ m with status := .over }, [.matchOverMsg w, .stateMsg])
  else
    let m := timer_start now (timer_reset_break { m with status := .brk })
    (m, [.roundOverMsg (some w), .stateMsg, .timerMsg])

/-- check_ptg_and_finalize_if_needed: finalize the round for the leader
when the score gap has reached ptg_gap. -/
def check_ptg_and_finalize_if_needed (now : ℚ) (m : Machine) : Machine × List Emit :=
  if |m.scores.red - m.scores.blue| ≥ m.ptgGap then
    finalize_round now m (if m.scores.red > m.scores.blue then .red else .blue)
  else (m, [])

/-- end_round_by_time: on round-timer expiry, a draw enters break
awaiting the operator, otherwise the leader wins the round. -/
def end_round_by_time (now : ℚ) (m : Machine) : Machine × List Emit :=
  if m.scores.red = m.scores.blue then
    (timer_reset_break { m with status := .brk }, [.roundOverMsg none, .stateMsg])
  else
    finalize_round now m (if m.scores.red > m.scores.blue then .red else .blue)

/-- next_round: advance the round counter, zero scores and penalties, run,
reset (without starting) the round timer. -/
def next_round (m : Machine) : Machine :=
  timer_reset_round
    { m with round := m.round + 1, scores := ⟨0, 0⟩, gamjeom := ⟨0, 0⟩, status := .running }

/-- add_vote_to_buffer: append a vote stamped with the current monotonic
instant. -/
def add_vote_to_buffer (now : ℚ) (sid : String) (c : Color) (pts : Int) (m : Machine) : Machine :=
  { m with voteBuffer := m.voteBuffer ++ [{ sid := sid, color := c, points := pts, tsMono := now }] }

/-- The votes of a buffer that are inside the scoring window at instant
now (ts_mono >= now - SCORING_WINDOW). -/
def windowVotes (now : ℚ) (buf : List Vote) : List Vote :=
  buf.filter (fun v => now - SCORING_WINDOW ≤ v.tsMono)

/-- clean_vote_buffer: drop the votes that fell out of the window. -/
def clean_vote_buffer (now : ℚ) (m : Machine) : Machine :=
  { m with voteBuffer := windowVotes now m.voteBuffer }

/-- Remove duplicates keeping the first occurrence of each element, in
first-occurrence order: the key order of a Python dict built by
insertion, and the distinct elements of a Python set. -/
def insertionDedup {α : Type} [DecidableEq α] (l : List α) : List α :=
  l.foldl (fun acc k => if k ∈ acc then acc else acc ++ [k]) []

/-- The distinct voter ids of the (color, points) group k inside a
buffer: the Python set groups[key]. -/
def groupVoters (buf : List Vote) (k : Color × Int) : List String :=
  insertionDedup ((buf.filter (fun v => v.color = k.1 ∧ v.points = k.2)).map (fun v => v.sid))

/-- One eligible group as built inside process_vote_buffer:
(len(sids), pts, color, sids). -/
structure Grp where
  count : Nat
  pts : Int
  color : Color
  sids : List String
deriving DecidableEq

/-- Strict ordering used to pick the winning group: more voters first,
then higher point value. -/
def grpLt (a b : Grp) : Prop :=
  a.count < b.count ∨ (a.count = b.count ∧ a.pts < b.pts)

instance (a b : Grp) : Decidable (grpLt a b) := by
  unfold grpLt; infer_instance

/-- Fold keeping the running best group, replacing it only on a strictly
better (count, pts) key: this returns the element the stable descending
sort of app.py places first. -/
def pickBestAux (g : Grp) (l : List Grp) : Grp :=
  l.foldl (fun best x => if grpLt best x then x else best) g

/-- The winning group of a list of eligible groups, if any. -/
def pickBest : List Grp → Option Grp
  | [] => none
  | g :: l => some (pickBestAux g l)

/-- The group process_vote_buffer selects at instant now: the buffer is
restricted to the window (the redundant second cutoff check of app.py
coincides with the cleaning filter since both run at the same now), the
groups are keyed in first-vote order, and among the groups meeting
quorum the one with most distinct voters wins, ties to higher points. -/
def pvb_selection (now : ℚ) (m : Machine) : Option Grp :=
  let buf := windowVotes now m.voteBuffer
  if buf = [] then none
  else
    let keys := insertionDedup (buf.map (fun v => (v.color, v.points)))
    let grps := keys.map (fun k => Grp.mk (groupVoters buf k).length k.2 k.1 (groupVoters buf k))
    pickBest (grps.filter (fun g => quorum_required m ≤ g.count))

/-- process_vote_buffer: clean the buffer, pick the winning quorum group
if any, and apply it: push a history entry, add the points, drop every
vote whose voter is in the winning set, then run the point-gap check.
Returns the machine, the bool the Python function returns, and the
emitted messages. -/
def process_vote_buffer (now : ℚ) (m : Machine) : Machine × Bool × List Emit :=
  let m := clean_vote_buffer now m
  match pvb_selection now m with
  | none => (m, false, [])
  | some g =>
      let m := push_history m (.score g.color g.pts)
      let m := { m with scores := m.scores.set g.color (m.scores.get g.color + g.pts) }
      let m := { m with voteBuffer := m.voteBuffer.filter (fun v => ¬ v.sid ∈ g.sids) }
      let r := check_ptg_and_finalize_if_needed now m
      (r.1, true, r.2 ++ [.refScoreApplied g.color g.pts g.count, .stateMsg])

/-- Dict assignment remotes[sid] = r: replace in place when the key
exists, else append. -/
def setRemote (rs : List (String × Remote)) (sid : String) (r : Remote) :
    List (String × Remote) :=
  if rs.any (fun e => e.1 = sid) then rs.map (fun e => if e.1 = sid then (sid, r) else e)
  else rs ++ [(sid, r)]

/-- Update the roster entry of sid with a fresh activity stamp and the
tested flag (the two lines ref_press runs after its guards). -/
def touchRemote (now : ℚ) (sid : String) (m : Machine) : Machine :=
  { m with remotes := m.remotes.map (fun e =>
      if e.1 = sid then (e.1, { e.2 with lastActivityMono := some now, tested := true }) else e) }

/-- ref_join handler: password check, then create the roster entry (name
falls back to Judge and is cut to 24 characters). -/
def ref_join (noww : ℚ) (sid pw name : String) (m : Machine) : Machine × List Emit :=
  if pw ≠ m.matchPassword then (m, [.refJoinResult false])
  else
    let nm := (if name = "" then "Judge" else name).take 24
    let r : Remote := { name := nm, connectedAt := noww, lastActivityMono := none, tested := false }
    ({ m with remotes := setRemote m.remotes sid r }, [.remoteStatus, .refJoinResult true])

/-- ref_press handler with SERVER_SIDE_MAJORITY = True (the configured
default): validate color and points first, then password, then that the
match is running and the sender is a registered referee; on success stamp
activity, buffer the vote and evaluate the buffer. Any failed guard
returns the machine unchanged with no emission. -/
def ref_press (now : ℚ) (sid pw color : String) (pts : Int) (m : Machine) :
    Machine × List Emit :=
  match parseColor color with
  | none => (m, [])
  | some c =>
    if ¬ (pts = 1 ∨ pts = 2 ∨ pts = 3) then (m, [])
    else if pw ≠ m.matchPassword then (m, [])
    else if m.status ≠ .running then (m, [])
    else if ¬ m.remotes.any (fun e => e.1 = sid) then (m, [])
    else
      let m := touchRemote now sid m
      let m := add_vote_to_buffer now sid c pts m
      let r := process_vote_buffer now m
      (r.1, r.2.2 ++ [.remoteStatus, .refPressTrace c pts])

/-- operator_adjust_score handler: invalid color or zero delta is a
no-op; otherwise push history, clamp the score at zero, and run the
point-gap check. -/
def operator_adjust_score (now : ℚ) (color : String) (delta : Int) (m : Machine) :
    Machine × List Emit :=
  match parseColor color with
  | none => (m, [])
  | some c =>
    if delta = 0 then (m, [])
    else
      let m := push_history m (.score c delta)
      let m := { m with scores := m.scores.set c (max 0 (m.scores.get c + delta)) }
      let r := check_ptg_and_finalize_if_needed now m
      (r.1, r.2 ++ [.stateMsg])

/-- operator_gamjeom handler: penalty count +1 for the color, +1 point
for the opponent, then the point-gap check. -/
def operator_gamjeom (now : ℚ) (color : String) (m : Machine) : Machine × List Emit :=
  match parseColor color with
  | none => (m, [])
  | some c =>
    let m := push_history m (.gamjeom c)
    let m := { m with gamjeom := m.gamjeom.set c (m.gamjeom.get c + 1) }
    let m := { m with scores := m.scores.set c.other (m.scores.get c.other + 1) }
    let r := check_ptg_and_finalize_if_needed now m
    (r.1, r.2 ++ [.stateMsg])

/-- operator_undo handler: an empty stack reports a toast and mutates
nothing; otherwise pop the newest entry and invert it with the floors at
zero of app.py. -/
def operator_undo (m : Machine) : Machine × List Emit :=
  match m.history.getLast? with
  | none => (m, [.toast "Nothing to undo"])
  | some a =>
    let m := { m with history := m.history.dropLast }
    match a with
    | .score c d =>
        ({ m with scores := m.scores.set c (max 0 (m.scores.get c - d)) }, [.stateMsg])
    | .gamjeom c =>
        let m := { m with gamjeom := m.gamjeom.set c (max 0 (m.gamjeom.get c - 1)) }
        ({ m with scores := m.scores.set c.other (max 0 (m.scores.get c.other - 1)) },
         [.stateMsg])

/-- operator_declare_match handler: force the round wins of the color to
rounds_to_win and end the match, with no status guard. -/
def operator_declare_match (color : String) (m : Machine) : Machine × List Emit :=
  match parseColor color with
  | none => (m, [])
  | some c =>
    ({ m with roundWins := m.roundWins.set c m.roundsToWin, status := .over },
     [.matchOverMsg c, .stateMsg])

/-- timer_ctrl handler: start only while running or in break; pause and
the two resets have no status guard; always re-broadcast. -/
def timer_ctrl (now : ℚ) (action : String) (m : Machine) : Machine × List Emit :=
  let m :=
    if action = "start" then
      if m.status = .running ∨ m.status = .brk then timer_start now m else m
    else if action = "pause" then timer_pause now m
    else if action = "reset_round" then timer_reset_round m
    else if action = "reset_break" then timer_reset_break m
    else m
  (m, [.timerMsg, .stateMsg])

/-- operator_proceed_if_ready handler: enter running from connecting or
paused once the roster is full and every referee has tested. -/
def operator_proceed_if_ready (m : Machine) : Machine × List Emit :=
  let connected := (m.remotes.length : Int) ≥ m.numRefsCfg
  let tested := m.remotes.all (fun e => e.2.tested) ∧ connected
  if connected ∧ tested ∧ (m.status = .connecting ∨ m.status = .paused) then
    (timer_reset_round { m with status := .running }, [.proceedMain, .stateMsg, .timerMsg])
  else (m, [])

/-- operator_next_round handler: refused in the over state. -/
def operator_next_round (m : Machine) : Machine × List Emit :=
  if m.status = .over then (m, [])
  else (next_round m, [.stateMsg, .timerMsg])

/-- operator_request_replay handler: open a challenge for a color only
when none is pending and that color still has budget; the budget is not
consumed at open time. -/
def operator_request_replay (color : String) (m : Machine) : Machine × List Emit :=
  match parseColor color with
  | none => (m, [])
  | some c =>
    if m.ivrPending ≠ none then (m, [])
    else if m.ivrAvailable.get c ≤ 0 then (m, [])
    else ({ m with ivrPending := some { color := c, votes := [] } }, [.ivrOverlay c])

/-- operator_replay_result_ack handler: dismiss the overlay. -/
def operator_replay_result_ack (m : Machine) : Machine × List Emit :=
  ({ m with ivrPending := none }, [.stateMsg])

/-- ref_accept_replay handler: add the sender to the accept set; on
reaching quorum resolve accepted without consuming budget. -/
def ref_accept_replay (sid pw : String) (m : Machine) : Machine × List Emit :=
  if pw ≠ m.matchPassword then (m, [])
  else
    match m.ivrPending with
    | none => (m, [])
    | some p =>
      let votes := if sid ∈ p.votes then p.votes else p.votes ++ [sid]
      let m := { m with ivrPending := some { p with votes := votes } }
      if votes.length ≥ quorum_required m then
        ({ m with ivrPending := none },
         [.ivrVotes votes.length, .ivrResult true p.color, .stateMsg])
      else (m, [.ivrVotes votes.length])

/-- ref_decline_replay handler, exactly as written in app.py: only
accepts are tallied, and the resolve-declined test compares
yes + (total - yes) against the quorum over the integers. -/
def ref_decline_replay (pw : String) (m : Machine) : Machine × List Emit :=
  if pw ≠ m.matchPassword then (m, [])
  else
    match m.ivrPending with
    | none => (m, [])
    | some p =>
      let total : Int := m.remotes.length
      let yes : Int := p.votes.length
      let needed : Int := quorum_required m
      if yes + (total - yes) < needed then
        ({ m with
            ivrAvailable := m.ivrAvailable.set p.color (max 0 (m.ivrAvailable.get p.color - 1)),
            ivrPending := none },
         [.ivrResult false p.color, .stateMsg])
      else (m, [.ivrVotes p.votes.length])

/-- disconnect handler for a socket id found in the roster: drop the
entry, purge the buffered votes of that id, pause the timer, and force
paused unless the match is over. -/
def on_disconnect (now : ℚ) (sid : String) (m : Machine) : Machine × List Emit :=
  if m.remotes.any (fun e => e.1 = sid) then
    let m := { m with remotes := m.remotes.filter (fun e => e.1 ≠ sid),
                      voteBuffer := m.voteBuffer.filter (fun v => v.sid ≠ sid) }
    let m := timer_pause now m
    let m := if m.status ≠ .over then { m with status := .paused } else m
    (m, [.remoteStatus, .forceSetup])
  else (m, [])

/-- new_match handler: reinitialize the runtime fields while preserving
the configuration. -/
def new_match (m : Machine) : Machine :=
  new_machine_state m.numRefsCfg m.roundTime m.breakTime m.matchPassword
    m.category m.redName m.blueName

/-- The expiry branch of one background tick at monotonic instant now:
when a running timer has counted down to zero, stop it at zero, then end
the round if the match was running, or leave break into paused with the
round timer reset. -/
def tick_expire (now : ℚ) (m : Machine) : Machine × List Emit :=
  match m.timer.running, m.timer.lastStartedMono with
  | true, some s =>
    if max 0 (m.timer.remaining - (now - s)) ≤ 0 then
      let m := { m with timer := { running := false, remaining := 0, lastStartedMono := none } }
      if m.status = .running then end_round_by_time now m
      else if m.status = .brk then
        (timer_reset_round { m with status := .paused }, [.stateMsg, .timerMsg])
      else (m, [])
    else (m, [])
  | _, _ => (m, [])

/-- One inbound operation or background-tick action on a match, each the
handler of app.py with the arguments an event can carry. -/
inductive Step : Machine → Machine → Prop
  | press (m : Machine) (now : ℚ) (sid pw color : String) (pts : Int) :
      Step m (ref_press now sid pw color pts m).1
  | join (m : Machine) (noww : ℚ) (sid pw name : String) :
      Step m (ref_join noww sid pw name m).1
  | adjust (m : Machine) (now : ℚ) (color : String) (delta : Int) :
      Step m (operator_adjust_score now color delta m).1
  | penalty (m : Machine) (now : ℚ) (color : String) :
      Step m (operator_gamjeom now color m).1
  | undo (m : Machine) :
      Step m (operator_undo m).1
  | declare (m : Machine) (color : String) :
      Step m (operator_declare_match color m).1
  | timerAct (m : Machine) (now : ℚ) (action : String) :
      Step m (timer_ctrl now action m).1
  | proceed (m : Machine) :
      Step m (operator_proceed_if_ready m).1
  | nextRound (m : Machine) :
      Step m (operator_next_round m).1
  | requestReplay (m : Machine) (color : String) :
      Step m (operator_request_replay color m).1
  | ackReplay (m : Machine) :
      Step m (operator_replay_result_ack m).1
  | acceptReplay (m : Machine) (sid pw : String) :
      Step m (ref_accept_replay sid pw m).1
  | declineReplay (m : Machine) (pw : String) :
      Step m (ref_decline_replay pw m).1
  | disconnect (m : Machine) (now : ℚ) (sid : String) :
      Step m (on_disconnect now sid m).1
  | fresh (m : Machine) :
      Step m (new_match m)
  | sweep (m : Machine) (now : ℚ) :
      Step m (process_vote_buffer now m).1
  | expire (m : Machine) (now : ℚ) :
      Step m (tick_expire now m).1

/-- The match states reachable from a fresh machine under the operations
of app.py. -/
inductive Reached : Machine → Prop
  | init (numRefs roundTime breakTime : Int) (pw cat rn bn : String) :
      Reached (new_machine_state numRefs roundTime breakTime pw cat rn bn)
  | step {m m' : Machine} : Reached m → Step m m' → Reached m'

/-- The steps of Step restricted so that no score-mutating evaluation
(operator adjustment, penalty, vote-buffer sweep) is applied while the
match is over. -/
inductive SafeStep : Machine → Machine → Prop
  | press (m : Machine) (now : ℚ) (sid pw color : String) (pts : Int) :
      SafeStep m (ref_press now sid pw color pts m).1
  | join (m : Machine) (noww : ℚ) (sid pw name : String) :
      SafeStep m (ref_join noww sid pw name m).1
  | adjust (m : Machine) (now : ℚ) (color : String) (delta : Int)
      (h : m.status ≠ .over) :
      SafeStep m (operator_adjust_score now color delta m).1
  | penalty (m : Machine) (now : ℚ) (color : String) (h : m.status ≠ .over) :
      SafeStep m (operator_gamjeom now color m).1
  | undo (m : Machine) :
      SafeStep m (operator_undo m).1
  | declare (m : Machine) (color : String) :
      SafeStep m (operator_declare_match color m).1
  | timerAct (m : Machine) (now : ℚ) (action : String) :
      SafeStep m (timer_ctrl now action m).1
  | proceed (m : Machine) :
      SafeStep m (operator_proceed_if_ready m).1
  | nextRound (m : Machine) :
      SafeStep m (operator_next_round m).1
  | requestReplay (m : Machine) (color : String) :
      SafeStep m (operator_request_replay color m).1
  | ackReplay (m : Machine) :
      SafeStep m (operator_replay_result_ack m).1
  | acceptReplay (m : Machine) (sid pw : String) :
      SafeStep m (ref_accept_replay sid pw m).1
  | declineReplay (m : Machine) (pw : String) :
      SafeStep m (ref_decline_replay pw m).1
  | disconnect (m : Machine) (now : ℚ) (sid : String) :
      SafeStep m (on_disconnect now sid m).1
  | fresh (m : Machine) :
      SafeStep m (new_match m)
  | sweep (m : Machine) (now : ℚ) (h : m.status ≠ .over) :
      SafeStep m (process_vote_buffer now m).1
  | expire (m : Machine) (now : ℚ) :
      SafeStep m (tick_expire now m).1

/-- Reachability under the restricted steps. -/
inductive SafeReached : Machine → Prop
  | init (numRefs roundTime breakTime : Int) (pw cat rn bn : String) :
      SafeReached (new_machine_state numRefs roundTime breakTime pw cat rn bn)
  | step {m m' : Machine} : SafeReached m → SafeStep m m' → SafeReached m'

/-- The round-win invariant of the spec: round wins are bounded by
rounds_to_win and the match is over exactly when one color has reached
that bound. -/
def InvC2 (m : Machine) : Prop :=
  m.roundWins.get .red ≤ m.roundsToWin ∧
  m.roundWins.get .blue ≤ m.roundsToWin ∧
  (m.status = .over ↔
    (m.roundWins.get .red = m.roundsToWin ∨ m.roundWins.get .blue = m.roundsToWin))

instance (m : Machine) : Decidable (InvC2 m) := by
  unfold InvC2; infer_instance

-- ===== Concrete scenarios used by counterexamples and witnesses =====

/-- A default machine: 3 referees, 120 s rounds, 60 s breaks. -/
def base3 : Machine := new_machine_state 3 120 60 "1234" "" "RED" "BLUE"

/-- A 4-referee machine for the IVR scenario of the spec. -/
def c1m0 : Machine := new_machine_state 4 120 60 "1234" "" "RED" "BLUE"

/-- Four referees joined. -/
def c1joined : Machine :=
  (ref_join 0 "d" "1234" "D"
    (ref_join 0 "c" "1234" "C"
      (ref_join 0 "b" "1234" "B"
        (ref_join 0 "a" "1234" "A" c1m0).1).1).1).1

/-- Red challenge opened. -/
def c1open : Machine := (operator_request_replay "red" c1joined).1

/-- Two declines recorded. -/
def c1twoDecl : Machine :=
  (ref_decline_replay "1234" (ref_decline_replay "1234" c1open).1).1

/-- The third decline. -/
def c1third : Machine × List Emit := ref_decline_replay "1234" c1twoDecl

/-- Over state reached by declaring red the winner of a fresh match. -/
def c2over : Machine := (operator_declare_match "red" base3).1

/-- A +12 red adjustment applied in the over state. -/
def c2after : Machine := (operator_adjust_score 0 "red" 12 c2over).1

/-- A generic roster entry for scenario machines. -/
def someRemote : Remote :=
  { name := "R", connectedAt := 0, lastActivityMono := none, tested := true }

/-- A running 3-referee match where referee A voted red 2 and blue 1 and
referee B voted red 2, all at instant 10. -/
def c3m : Machine :=
  { base3 with
      status := .running
      remotes := [("A", someRemote), ("B", someRemote), ("C", someRemote)]
      voteBuffer := [⟨"A", .red, 2, 10⟩, ⟨"A", .blue, 1, 10⟩, ⟨"B", .red, 2, 10⟩] }

/-- Score red 1 from a fresh machine. -/
def c4m1 : Machine := (operator_adjust_score 0 "red" 1 base3).1

/-- Then adjust red by -5, clamping at zero. -/
def c4m2 : Machine := (operator_adjust_score 0 "red" (-5) c4m1).1

/-- Over state, then a +12 blue adjustment. -/
def c5over : Machine := (operator_declare_match "red" base3).1

/-- The blue adjustment finalizes a blue round win and leaves over. -/
def c5after : Machine := (operator_adjust_score 0 "blue" 12 c5over).1

/-- A running 3-referee scenario for the quorum-evaluation witness:
referees A and B voted red 2, referee A also voted red 1. -/
def c6m : Machine :=
  { base3 with
      status := .running
      remotes := [("A", someRemote), ("B", someRemote), ("C", someRemote)]
      voteBuffer := [⟨"A", .red, 2, 10⟩, ⟨"A", .red, 1, 10⟩, ⟨"B", .red, 2, 10⟩] }

/-- Non-strict version of the selection order: fewer voters, or equal
voters and at most the point value. -/
def grpLe (a b : Grp) : Prop :=
  a.count < b.count ∨ (a.count = b.count ∧ a.pts ≤ b.pts)

/-- The award block of process_vote_buffer in isolation: clean the
buffer, push the history entry, add the points, drop every vote cast by
a voter of the winning set. This is the state on which the point-gap
check then runs. -/
def applyAward (now : ℚ) (m : Machine) (g : Grp) : Machine :=
  let m := clean_vote_buffer now m
  let m := push_history m (.score g.color g.pts)
  let m := { m with scores := m.scores.set g.color (m.scores.get g.color + g.pts) }
  { m with voteBuffer := m.voteBuffer.filter (fun v => ¬ v.sid ∈ g.sids) }

/-- The wire string of a color. -/
def colorStr : Color → String
  | .red => "red"
  | .blue => "blue"

/-- A machine whose timer is running: remaining 120 counted from
monotonic instant 5. -/
def c7m : Machine :=
  { base3 with timer := { running := true, remaining := 120, lastStartedMono := some 5 } }

/-- A running machine with one registered referee, for the invalid-press
witness. -/
def c10m : Machine :=
  { base3 with status := .running, remotes := [("A", someRemote)] }

-- ===== Helper lemmas =====

theorem ColorPair.get_set_self (p : ColorPair) (c : Color) (v : Int) :
    (p.set c v).get c = v := by
  cases c <;> rfl

theorem ColorPair.get_set (p : ColorPair) (c c' : Color) (v : Int) :
    (p.set c v).get c' = if c' = c then v else p.get c' := by
  cases c <;> cases c' <;> rfl

theorem ColorPair.set_get (p : ColorPair) (c : Color) : p.set c (p.get c) = p := by
  cases c <;> rfl

theorem invC2_of_eq (m m' : Machine) (hw : m'.roundWins = m.roundWins)
    (hr : m'.roundsToWin = m.roundsToWin) (hs : m'.status = m.status) :
    InvC2 m → InvC2 m' := by
  intro h
  unfold InvC2 at h ⊢
  rw [hw, hr, hs]
  exact h

theorem finalize_round_fields (now : ℚ) (m : Machine) (w : Color) :
    (finalize_round now m w).1.roundWins = m.roundWins.set w (m.roundWins.get w + 1) ∧
    (finalize_round now m w).1.roundsToWin = m.roundsToWin ∧
    (finalize_round now m w).1.status =
      (if m.roundWins.get w + 1 ≥ m.roundsToWin then Status.over else Status.brk) := by
  unfold finalize_round timer_pause timer_reset_break timer_start
  simp only [ColorPair.get_set_self]
  split <;> simp_all

theorem finalize_round_invC2 (now : ℚ) (m : Machine) (w : Color)
    (hInv : InvC2 m) (hno : m.status ≠ .over) :
    InvC2 (finalize_round now m w).1 := by
  obtain ⟨h1, h2, h3⟩ := hInv
  have hnr : ¬ (m.roundWins.get .red = m.roundsToWin ∨ m.roundWins.get .blue = m.roundsToWin) :=
    fun h => hno (h3.mpr h)
  push_neg at hnr
  obtain ⟨hnr1, hnr2⟩ := hnr
  obtain ⟨hf1, hf2, hf3⟩ := finalize_round_fields now m w
  unfold InvC2
  rw [hf1, hf2, hf3]
  cases w <;>
    simp only [ColorPair.get, ColorPair.set] at h1 h2 hnr1 hnr2 ⊢ <;>
    refine ⟨by omega, by omega, ?_⟩ <;>
    split <;> simp_all <;> omega

theorem check_ptg_invC2 (now : ℚ) (m : Machine)
    (hInv : InvC2 m) (hno : m.status ≠ .over) :
    InvC2 (check_ptg_and_finalize_if_needed now m).1 := by
  unfold check_ptg_and_finalize_if_needed
  split
  · exact finalize_round_invC2 now m _ hInv hno
  · exact hInv

theorem new_machine_invC2 (numRefs roundTime breakTime : Int) (pw cat rn bn : String) :
    InvC2 (new_machine_state numRefs roundTime breakTime pw cat rn bn) := by
  refine ⟨?_, ?_, ?_⟩ <;> simp [new_machine_state, InvC2, ColorPair.get]

theorem process_vote_buffer_invC2 (now : ℚ) (m : Machine)
    (hInv : InvC2 m) (hno : m.status ≠ .over) :
    InvC2 (process_vote_buffer now m).1 := by
  unfold process_vote_buffer
  dsimp only
  split
  · exact invC2_of_eq m _ rfl rfl rfl hInv
  · exact check_ptg_invC2 now _ (invC2_of_eq m _ rfl rfl rfl hInv) hno

theorem ref_press_invC2 (now : ℚ) (sid pw color : String) (pts : Int) (m : Machine)
    (hInv : InvC2 m) : InvC2 (ref_press now sid pw color pts m).1 := by
  unfold ref_press
  split
  · exact hInv
  split
  · exact hInv
  split
  · exact hInv
  split
  · exact hInv
  split
  · exact hInv
  rename_i hst _
  rw [Ne, not_not] at hst
  exact process_vote_buffer_invC2 now _ (invC2_of_eq m _ rfl rfl rfl hInv)
    (by simp only [touchRemote, add_vote_to_buffer]; rw [hst]; simp)

theorem operator_adjust_score_invC2 (now : ℚ) (color : String) (delta : Int) (m : Machine)
    (hInv : InvC2 m) (hno : m.status ≠ .over) :
    InvC2 (operator_adjust_score now color delta m).1 := by
  unfold operator_adjust_score
  split
  · exact hInv
  split
  · exact hInv
  exact check_ptg_invC2 now _ (invC2_of_eq m _ rfl rfl rfl hInv) hno

theorem operator_gamjeom_invC2 (now : ℚ) (color : String) (m : Machine)
    (hInv : InvC2 m) (hno : m.status ≠ .over) :
    InvC2 (operator_gamjeom now color m).1 := by
  unfold operator_gamjeom
  split
  · exact hInv
  exact check_ptg_invC2 now _ (invC2_of_eq m _ rfl rfl rfl hInv) hno

theorem operator_undo_invC2 (m : Machine) (hInv : InvC2 m) :
    InvC2 (operator_undo m).1 := by
  unfold operator_undo
  split
  · exact hInv
  split
  · exact invC2_of_eq m _ rfl rfl rfl hInv
  · exact invC2_of_eq m _ rfl rfl rfl hInv

theorem operator_declare_match_invC2 (color : String) (m : Machine) (hInv : InvC2 m) :
    InvC2 (operator_declare_match color m).1 := by
  obtain ⟨h1, h2, _⟩ := hInv
  unfold operator_declare_match
  split
  · exact ⟨h1, h2, by simp_all⟩
  rename_i c _
  refine ⟨?_, ?_, ?_⟩ <;>
    cases c <;>
    simp_all [ColorPair.get, ColorPair.set]

theorem timer_ctrl_invC2 (now : ℚ) (action : String) (m : Machine) (hInv : InvC2 m) :
    InvC2 (timer_ctrl now action m).1 := by
  unfold timer_ctrl timer_start timer_pause timer_reset_round timer_reset_break
  split
  · split
    · exact invC2_of_eq m _ rfl rfl rfl hInv
    · exact hInv
  split
  · exact invC2_of_eq m _ rfl rfl rfl hInv
  split
  · exact invC2_of_eq m _ rfl rfl rfl hInv
  split
  · exact invC2_of_eq m _ rfl rfl rfl hInv
  · exact hInv

theorem operator_proceed_if_ready_invC2 (m : Machine) (hInv : InvC2 m) :
    InvC2 (operator_proceed_if_ready m).1 := by
  obtain ⟨h1, h2, h3⟩ := hInv
  unfold operator_proceed_if_ready
  dsimp only
  split
  · rename_i hc
    refine ⟨h1, h2, ?_⟩
    simp only [timer_reset_round]
    constructor
    · intro h
      exact absurd h (by simp)
    · intro h
      rcases hc.2.2 with hs | hs <;> rw [hs] at h3 <;> simp at h3 <;> simp_all
  · exact ⟨h1, h2, h3⟩

theorem operator_next_round_invC2 (m : Machine) (hInv : InvC2 m) :
    InvC2 (operator_next_round m).1 := by
  obtain ⟨h1, h2, h3⟩ := hInv
  unfold operator_next_round next_round timer_reset_round
  split
  · exact ⟨h1, h2, h3⟩
  · rename_i hs
    refine ⟨h1, h2, ?_⟩
    constructor
    · intro h
      exact absurd h (by simp)
    · intro h
      exact absurd (h3.mpr h) hs

theorem operator_request_replay_invC2 (color : String) (m : Machine) (hInv : InvC2 m) :
    InvC2 (operator_request_replay color m).1 := by
  unfold operator_request_replay
  split
  · exact hInv
  split
  · exact hInv
  split
  · exact hInv
  · exact invC2_of_eq m _ rfl rfl rfl hInv

theorem operator_replay_result_ack_invC2 (m : Machine) (hInv : InvC2 m) :
    InvC2 (operator_replay_result_ack m).1 :=
  invC2_of_eq m _ rfl rfl rfl hInv

theorem ref_accept_replay_invC2 (sid pw : String) (m : Machine) (hInv : InvC2 m) :
    InvC2 (ref_accept_replay sid pw m).1 := by
  unfold ref_accept_replay
  dsimp only
  split
  · exact hInv
  split
  · exact hInv
  split <;> split <;> exact invC2_of_eq m _ rfl rfl rfl hInv

theorem ref_decline_replay_invC2 (pw : String) (m : Machine) (hInv : InvC2 m) :
    InvC2 (ref_decline_replay pw m).1 := by
  unfold ref_decline_replay
  dsimp only
  split
  · exact hInv
  split
  · exact hInv
  split
  · exact invC2_of_eq m _ rfl rfl rfl hInv
  · exact hInv

theorem ref_join_invC2 (noww : ℚ) (sid pw name : String) (m : Machine) (hInv : InvC2 m) :
    InvC2 (ref_join noww sid pw name m).1 := by
  unfold ref_join
  dsimp only
  split
  · exact hInv
  · exact invC2_of_eq m _ rfl rfl rfl hInv

theorem on_disconnect_invC2 (now : ℚ) (sid : String) (m : Machine) (hInv : InvC2 m) :
    InvC2 (on_disconnect now sid m).1 := by
  obtain ⟨h1, h2, h3⟩ := hInv
  unfold on_disconnect timer_pause
  dsimp only
  split
  · split
    · rename_i hs
      refine ⟨h1, h2, ?_⟩
      constructor
      · intro h
        exact absurd h (by simp)
      · intro h
        exact absurd (h3.mpr h) hs
    · rename_i hs
      rw [Ne, not_not] at hs
      exact ⟨h1, h2, by rw [hs] at h3 ⊢; simpa using h3⟩
  · exact ⟨h1, h2, h3⟩

theorem end_round_by_time_invC2 (now : ℚ) (m : Machine)
    (hInv : InvC2 m) (hno : m.status ≠ .over) :
    InvC2 (end_round_by_time now m).1 := by
  obtain ⟨h1, h2, h3⟩ := hInv
  unfold end_round_by_time timer_reset_break
  split
  · refine ⟨h1, h2, ?_⟩
    constructor
    · intro h
      exact absurd h (by simp)
    · intro h
      exact absurd (h3.mpr h) hno
  · exact finalize_round_invC2 now m _ ⟨h1, h2, h3⟩ hno

theorem tick_expire_invC2 (now : ℚ) (m : Machine) (hInv : InvC2 m) :
    InvC2 (tick_expire now m).1 := by
  unfold tick_expire
  split
  · dsimp only
    split
    · split
      · rename_i hs
        exact end_round_by_time_invC2 now _ (invC2_of_eq m _ rfl rfl rfl hInv)
          (by rw [hs]; simp)
      split
      · rename_i hns hs
        obtain ⟨h1, h2, h3⟩ := hInv
        refine ⟨h1, h2, ?_⟩
        simp only [timer_reset_round]
        constructor
        · intro h
          exact absurd h (by simp)
        · intro h
          rw [hs] at h3
          simp at h3
          simp_all
      · exact invC2_of_eq m _ rfl rfl rfl hInv
    · exact hInv
  · exact hInv

theorem insertionDedup_mem_aux {α : Type} [DecidableEq α] (l : List α) :
    ∀ acc a, (a ∈ l.foldl (fun acc k => if k ∈ acc then acc else acc ++ [k]) acc) ↔
      (a ∈ acc ∨ a ∈ l) := by
  induction l with
  | nil =>
      intro acc a
      simp
  | cons x xs ih =>
      intro acc a
      simp only [List.foldl_cons]
      by_cases hx : x ∈ acc
      · rw [if_pos hx, ih]
        simp only [List.mem_cons]
        constructor
        · rintro (h | h)
          · exact Or.inl h
          · exact Or.inr (Or.inr h)
        · rintro (h | rfl | h)
          · exact Or.inl h
          · exact Or.inl hx
          · exact Or.inr h
      · rw [if_neg hx, ih]
        simp only [List.mem_append, List.mem_cons, List.mem_singleton]
        tauto

theorem insertionDedup_mem {α : Type} [DecidableEq α] (l : List α) (a : α) :
    a ∈ insertionDedup l ↔ a ∈ l := by
  unfold insertionDedup
  rw [insertionDedup_mem_aux]
  simp

theorem insertionDedup_nodup_aux {α : Type} [DecidableEq α] (l : List α) :
    ∀ acc : List α, acc.Nodup →
      (l.foldl (fun acc k => if k ∈ acc then acc else acc ++ [k]) acc).Nodup := by
  induction l with
  | nil =>
      intro acc h
      simpa using h
  | cons x xs ih =>
      intro acc h
      simp only [List.foldl_cons]
      by_cases hx : x ∈ acc
      · rw [if_pos hx]
        exact ih acc h
      · rw [if_neg hx]
        refine ih _ ?_
        rw [List.nodup_append]
        refine ⟨h, List.nodup_singleton x, ?_⟩
        intro b hb hbx
        rw [List.mem_singleton] at hbx
        subst hbx
        exact hx hb

theorem insertionDedup_nodup {α : Type} [DecidableEq α] (l : List α) :
    (insertionDedup l).Nodup :=
  insertionDedup_nodup_aux l [] List.nodup_nil

theorem grpLe_refl (a : Grp) : grpLe a a := Or.inr ⟨rfl, le_refl _⟩

theorem grpLe_trans {a b c : Grp} (h1 : grpLe a b) (h2 : grpLe b c) : grpLe a c := by
  unfold grpLe at *
  omega

theorem grpLt_le {a b : Grp} (h : grpLt a b) : grpLe a b := by
  unfold grpLt at h
  unfold grpLe
  omega

theorem not_grpLt_le {a b : Grp} (h : ¬ grpLt a b) : grpLe b a := by
  unfold grpLt at h
  unfold grpLe
  omega

theorem pickBestAux_cons (g x : Grp) (xs : List Grp) :
    pickBestAux g (x :: xs) = pickBestAux (if grpLt g x then x else g) xs := rfl

theorem pickBestAux_spec (l : List Grp) :
    ∀ g : Grp, (pickBestAux g l = g ∨ pickBestAux g l ∈ l) ∧
      grpLe g (pickBestAux g l) ∧ ∀ x ∈ l, grpLe x (pickBestAux g l) := by
  induction l with
  | nil =>
      intro g
      exact ⟨Or.inl rfl, grpLe_refl g, by simp⟩
  | cons x xs ih =>
      intro g
      rw [pickBestAux_cons]
      by_cases h : grpLt g x
      · rw [if_pos h]
        obtain ⟨hm, hg, hall⟩ := ih x
        refine ⟨?_, grpLe_trans (grpLt_le h) hg, ?_⟩
        · rcases hm with h1 | h1
          · exact Or.inr (by simp [h1])
          · exact Or.inr (List.mem_cons_of_mem _ h1)
        · intro y hy
          rcases List.mem_cons.mp hy with rfl | hy
          · exact hg
          · exact hall y hy
      · rw [if_neg h]
        obtain ⟨hm, hg, hall⟩ := ih g
        refine ⟨?_, hg, ?_⟩
        · rcases hm with h1 | h1
          · exact Or.inl h1
          · exact Or.inr (List.mem_cons_of_mem _ h1)
        · intro y hy
          rcases List.mem_cons.mp hy with rfl | hy
          · exact grpLe_trans (not_grpLt_le h) hg
          · exact hall y hy

theorem pickBest_spec {l : List Grp} {g : Grp} (h : pickBest l = some g) :
    g ∈ l ∧ ∀ x ∈ l, grpLe x g := by
  cases l with
  | nil => simp [pickBest] at h
  | cons a as =>
      simp only [pickBest, Option.some.injEq] at h
      subst h
      obtain ⟨hm, hg, hall⟩ := pickBestAux_spec as a
      constructor
      · rcases hm with h1 | h1
        · simp [h1]
        · exact List.mem_cons_of_mem _ h1
      · intro x hx
        rcases List.mem_cons.mp hx with rfl | hx
        · exact hg
        · exact hall x hx

theorem windowVotes_idem (now : ℚ) (buf : List Vote) :
    windowVotes now (windowVotes now buf) = windowVotes now buf := by
  unfold windowVotes
  rw [List.filter_filter]
  simp

theorem pvb_selection_clean (now : ℚ) (m : Machine) :
    pvb_selection now (clean_vote_buffer now m) = pvb_selection now m := by
  unfold pvb_selection clean_vote_buffer quorum_required
  simp only [windowVotes_idem]

theorem finalize_round_keeps (now : ℚ) (m : Machine) (w : Color) :
    (finalize_round now m w).1.voteBuffer = m.voteBuffer ∧
    (finalize_round now m w).1.history = m.history ∧
    (finalize_round now m w).1.remotes = m.remotes := by
  unfold finalize_round timer_pause timer_reset_break timer_start
  dsimp only
  split <;> exact ⟨rfl, rfl, rfl⟩

theorem check_ptg_keeps (now : ℚ) (m : Machine) :
    (check_ptg_and_finalize_if_needed now m).1.voteBuffer = m.voteBuffer ∧
    (check_ptg_and_finalize_if_needed now m).1.history = m.history ∧
    (check_ptg_and_finalize_if_needed now m).1.remotes = m.remotes := by
  unfold check_ptg_and_finalize_if_needed
  split
  · exact finalize_round_keeps now m _
  · exact ⟨rfl, rfl, rfl⟩

theorem groupVoters_mem (buf : List Vote) (k : Color × Int) (s : String) :
    s ∈ groupVoters buf k ↔ ∃ v ∈ buf, v.sid = s ∧ v.color = k.1 ∧ v.points = k.2 := by
  unfold groupVoters
  rw [insertionDedup_mem]
  simp only [List.mem_map, List.mem_filter]
  constructor
  · rintro ⟨v, ⟨hv, hm⟩, rfl⟩
    simp only [decide_eq_true_eq] at hm
    exact ⟨v, hv, rfl, hm.1, hm.2⟩
  · rintro ⟨v, hv, rfl, hc, hp⟩
    exact ⟨v, ⟨hv, by simp [hc, hp]⟩, rfl⟩

theorem safeStep_invC2 {m m' : Machine} (h : SafeStep m m') (hInv : InvC2 m) : InvC2 m' := by
  cases h with
  | press now sid pw color pts => exact ref_press_invC2 now sid pw color pts m hInv
  | join noww sid pw name => exact ref_join_invC2 noww sid pw name m hInv
  | adjust now color delta hno => exact operator_adjust_score_invC2 now color delta m hInv hno
  | penalty now color hno => exact operator_gamjeom_invC2 now color m hInv hno
  | undo => exact operator_undo_invC2 m hInv
  | declare color => exact operator_declare_match_invC2 color m hInv
  | timerAct now action => exact timer_ctrl_invC2 now action m hInv
  | proceed => exact operator_proceed_if_ready_invC2 m hInv
  | nextRound => exact operator_next_round_invC2 m hInv
  | requestReplay color => exact operator_request_replay_invC2 color m hInv
  | ackReplay => exact operator_replay_result_ack_invC2 m hInv
  | acceptReplay sid pw => exact ref_accept_replay_invC2 sid pw m hInv
  | declineReplay pw => exact ref_decline_replay_invC2 pw m hInv
  | disconnect now sid => exact on_disconnect_invC2 now sid m hInv
  | fresh => exact new_machine_invC2 _ _ _ _ _ _ _
  | sweep now hno => exact process_vote_buffer_invC2 now m hInv hno
  | expire now => exact tick_expire_invC2 now m hInv
theorem quorum_required_pos (m : Machine) : 1 ≤ quorum_required m :=
  le_max_left 1 _

theorem pickBest_isSome_of_mem {l : List Grp} {x : Grp} (h : x ∈ l) :
    (pickBest l).isSome := by
  cases l with
  | nil => cases h
  | cons a as => rfl

theorem pvb_selection_isSome (now : ℚ) (m : Machine) (c : Color) (p : Int)
    (h : quorum_required m ≤ (groupVoters (windowVotes now m.voteBuffer) (c, p)).length) :
    (pvb_selection now m).isSome := by
  have hpos : 0 < (groupVoters (windowVotes now m.voteBuffer) (c, p)).length :=
    lt_of_lt_of_le (quorum_required_pos m) h
  obtain ⟨s, hs⟩ := List.exists_mem_of_length_pos hpos
  obtain ⟨v, hv, hvs, hvc, hvp⟩ := (groupVoters_mem _ _ _).mp hs
  unfold pvb_selection
  rw [if_neg (by intro hnil; rw [hnil] at hv; cases hv)]
  have hk : (c, p) ∈ insertionDedup ((windowVotes now m.voteBuffer).map
      (fun v => (v.color, v.points))) := by
    rw [insertionDedup_mem]
    exact List.mem_map.mpr ⟨v, hv, by rw [hvc, hvp]⟩
  have hg : (Grp.mk (groupVoters (windowVotes now m.voteBuffer) (c, p)).length p c
      (groupVoters (windowVotes now m.voteBuffer) (c, p))) ∈
      ((insertionDedup ((windowVotes now m.voteBuffer).map (fun v => (v.color, v.points)))).map
        (fun k => Grp.mk (groupVoters (windowVotes now m.voteBuffer) k).length k.2 k.1
          (groupVoters (windowVotes now m.voteBuffer) k))) :=
    List.mem_map.mpr ⟨(c, p), hk, rfl⟩
  exact pickBest_isSome_of_mem (List.mem_filter.mpr
    ⟨hg, by simp only [decide_eq_true_eq]; exact h⟩)

theorem pvb_selection_some {now : ℚ} {m : Machine} {g : Grp}
    (h : pvb_selection now m = some g) :
    quorum_required m ≤ g.count ∧
    g.sids = groupVoters (windowVotes now m.voteBuffer) (g.color, g.pts) ∧
    g.count = g.sids.length ∧
    (∀ k : Color × Int,
      quorum_required m ≤ (groupVoters (windowVotes now m.voteBuffer) k).length →
      grpLe (Grp.mk (groupVoters (windowVotes now m.voteBuffer) k).length k.2 k.1
        (groupVoters (windowVotes now m.voteBuffer) k)) g) := by
  unfold pvb_selection at h
  rw [if_neg ?hne] at h
  case hne =>
    intro hnil
    rw [if_pos hnil] at h
    cases h
  case _ =>
    obtain ⟨hmem, hmax⟩ := pickBest_spec h
    obtain ⟨hgrps, hq⟩ := List.mem_filter.mp hmem
    obtain ⟨k, hk, hfk⟩ := List.mem_map.mp hgrps
    have hcol : g.color = k.1 := by rw [← hfk]
    have hpts : g.pts = k.2 := by rw [← hfk]
    have hsids : g.sids = groupVoters (windowVotes now m.voteBuffer) k := by rw [← hfk]
    have hcount : g.count = (groupVoters (windowVotes now m.voteBuffer) k).length := by
      rw [← hfk]
    refine ⟨by simpa using hq, ?_, ?_, ?_⟩
    · rw [hcol, hpts, hsids]
    · rw [hcount, hsids]
    · intro k' hk'
      have hpos : 0 < (groupVoters (windowVotes now m.voteBuffer) k').length :=
        lt_of_lt_of_le (quorum_required_pos m) hk'
      obtain ⟨s, hs⟩ := List.exists_mem_of_length_pos hpos
      obtain ⟨v, hv, hvs, hvc, hvp⟩ := (groupVoters_mem _ _ _).mp hs
      have hkk : k' ∈ insertionDedup ((windowVotes now m.voteBuffer).map
          (fun v => (v.color, v.points))) := by
        rw [insertionDedup_mem]
        exact List.mem_map.mpr ⟨v, hv, by rw [hvc, hvp]⟩
      exact hmax _ (List.mem_filter.mpr
        ⟨List.mem_map.mpr ⟨k', hkk, rfl⟩, by simpa using hk'⟩)

theorem applyAward_fields (now : ℚ) (m : Machine) (g : Grp) :
    (applyAward now m g).voteBuffer =
      (windowVotes now m.voteBuffer).filter (fun v => ¬ v.sid ∈ g.sids) ∧
    (applyAward now m g).scores = m.scores.set g.color (m.scores.get g.color + g.pts) ∧
    (applyAward now m g).history =
      (push_history (clean_vote_buffer now m) (.score g.color g.pts)).history ∧
    (applyAward now m g).status = m.status :=
  ⟨rfl, rfl, rfl, rfl⟩

theorem process_vote_buffer_some (now : ℚ) (m : Machine) (g : Grp)
    (h : pvb_selection now m = some g) :
    (process_vote_buffer now m).1 =
      (check_ptg_and_finalize_if_needed now (applyAward now m g)).1 ∧
    (process_vote_buffer now m).2.1 = true := by
  unfold process_vote_buffer
  have hc : pvb_selection now (clean_vote_buffer now m) = some g := by
    rw [pvb_selection_clean]
    exact h
  simp only [hc]
  exact ⟨rfl, trivial⟩

theorem push_history_getLast (m : Machine) (a : HistEntry) :
    (push_history m a).history.getLast? = some a := by
  unfold push_history
  dsimp only
  split
  · rename_i hlen
    have hle : (m.history ++ [a]).length - 128 ≤ m.history.length := by
      simp only [List.length_append, List.length_singleton]
      omega
    rw [List.drop_append_of_le_length hle]
    rw [List.getLast?_concat]
  · rw [List.getLast?_concat]

theorem operator_undo_score (m : Machine) (c : Color) (d : Int)
    (h : m.history.getLast? = some (.score c d)) :
    (operator_undo m).1 =
      { m with history := m.history.dropLast,
               scores := m.scores.set c (max 0 (m.scores.get c - d)) } := by
  unfold operator_undo
  split
  · rename_i heq
    rw [heq] at h
    cases h
  · rename_i a heq
    rw [heq] at h
    injection h with h
    subst h
    rfl

theorem parseColor_colorStr (c : Color) : parseColor (colorStr c) = some c := by
  cases c <;> rfl

theorem push_history_scores (m : Machine) (a : HistEntry) :
    (push_history m a).scores = m.scores := rfl

theorem push_history_ptgGap (m : Machine) (a : HistEntry) :
    (push_history m a).ptgGap = m.ptgGap := rfl

theorem ColorPair.set_set (p : ColorPair) (c : Color) (v w : Int) :
    (p.set c v).set c w = p.set c w := by
  cases c <;> rfl

theorem groupVoters_nodup (buf : List Vote) (k : Color × Int) :
    (groupVoters buf k).Nodup := by
  unfold groupVoters
  exact insertionDedup_nodup _

-- ===== Claim theorems =====

set_option maxRecDepth 8000 in
/-- Claim C1, counterexample: in the 4-referee scenario of the spec
(red challenge open, zero accepts), the third referee decline does not
resolve the challenge and does not consume budget: the challenge stays
pending, the red budget stays 1, and the handler only re-broadcasts the
accept tally of 0. -/
theorem C1_counterexample :
    c1joined.remotes.length = 4 ∧
    c1open.ivrPending = some ⟨Color.red, []⟩ ∧
    c1twoDecl.ivrPending = some ⟨Color.red, []⟩ ∧
    c1third.1.ivrPending = some ⟨Color.red, []⟩ ∧
    c1third.1.ivrAvailable.get .red = 1 ∧
    c1third.2 = [Emit.ivrVotes 0] ∧
    c1third.1 = c1twoDecl := by
  with_unfolding_all decide

/-- Claim C1 (amended): with a pending challenge and the correct
password, a decline resolves the challenge as declined (and decrements
the budget, floored at 0) exactly when the count of registered referees
is below quorum: the handler tallies accepts only, so declined referees
still count toward the referees that could accept, and the test
accepts + (total - accepts) < quorum collapses to total < quorum.
Whenever at least one referee is registered, quorum never exceeds the
referee count, so the decline leaves the match state unchanged and only
re-broadcasts the accept tally. -/
theorem C1_amended (m : Machine) (pw : String) (p : IvrPending)
    (hp : m.ivrPending = some p) (hpw : pw = m.matchPassword) :
    (((m.remotes.length : Int) < (quorum_required m : Int)) →
      ref_decline_replay pw m =
        ({ m with
            ivrAvailable := m.ivrAvailable.set p.color (max 0 (m.ivrAvailable.get p.color - 1)),
            ivrPending := none },
         [Emit.ivrResult false p.color, Emit.stateMsg])) ∧
    (((quorum_required m : Int) ≤ (m.remotes.length : Int)) →
      ref_decline_replay pw m = (m, [Emit.ivrVotes p.votes.length])) ∧
    (1 ≤ m.remotes.length → quorum_required m ≤ m.remotes.length) := by
  subst hpw
  unfold ref_decline_replay
  rw [if_neg (by simp)]
  simp only [hp]
  refine ⟨?_, ?_, ?_⟩
  · intro hlt
    rw [if_pos (by omega)]
  · intro hge
    rw [if_neg (by omega)]
  · intro hn
    unfold quorum_required
    omega

/-- Witness for C1 at the concrete two-decline state: four referees are
registered, so quorum (2) does not exceed the roster and the decline is
a recorded no-op. -/
theorem C1_witness :
    ref_decline_replay "1234" c1twoDecl = (c1twoDecl, [Emit.ivrVotes 0]) ∧
    quorum_required c1twoDecl ≤ c1twoDecl.remotes.length := by
  obtain ⟨h1, h2, h3⟩ := C1_amended c1twoDecl "1234" ⟨Color.red, []⟩
    (by with_unfolding_all decide) (by with_unfolding_all decide)
  exact ⟨h2 (by with_unfolding_all decide), h3 (by with_unfolding_all decide)⟩

/-- Claim C2, counterexample: the state reached by declaring red the
winner (round_wins red = rounds_to_win = 2, status over) and then
applying an operator +12 red adjustment is reachable, and in it
round_wins red = 3 exceeds rounds_to_win = 2: the adjustment has no
status guard, the point-gap check fires, and finalize_round increments
past the bound. -/
theorem C2_counterexample :
    Reached c2after ∧ c2after.roundWins.get .red = 3 ∧ c2after.roundsToWin = 2 := by
  refine ⟨?_, by with_unfolding_all decide, by with_unfolding_all decide⟩
  exact Reached.step
    (Reached.step (Reached.init 3 120 60 "1234" "" "RED" "BLUE") (Step.declare base3 "red"))
    (Step.adjust c2over 0 "red" 12)

/-- Claim C2 (amended): round_wins of each color stays bounded by
rounds_to_win, and the status is over exactly when one color has reached
rounds_to_win, in every state reachable when no score-mutating
evaluation (operator adjustment, penalty, vote-buffer sweep) is applied
while the match is over; without that restriction the bound fails, as
the C2 counterexample shows. -/
theorem C2_amended (m : Machine) (h : SafeReached m) : InvC2 m := by
  induction h with
  | init nr rt bt pw cat rn bn => exact new_machine_invC2 nr rt bt pw cat rn bn
  | step hm hs ih => exact safeStep_invC2 hs ih

/-- Witness for C2: the invariant holds at a freshly created machine,
reachable by the initial step. -/
theorem C2_witness : InvC2 base3 :=
  C2_amended base3 (SafeReached.init 3 120 60 "1234" "" "RED" "BLUE")

/-- Claim C5, counterexample: over is not terminal. From the over state
reached by declaring red the winner, an operator +12 blue adjustment is
accepted, fires the point-gap finalize for blue, mutates round_wins and
moves the status from over to break. -/
theorem C5_counterexample :
    c5over.status = Status.over ∧
    c5after.status = Status.brk ∧
    c5after.roundWins ≠ c5over.roundWins := by
  with_unfolding_all decide

/-- Claim C5 (amended): once round_wins of a color reaches rounds_to_win
the status becomes over, and in the over state referee scoring presses,
the operator next-round command and the proceed command are all rejected
without any state change or emission; operator score adjustments,
penalties, undo and timer controls however remain accepted in the over
state and can even leave it, as the C5 counterexample shows. -/
theorem C5_amended (m : Machine) (h : m.status = Status.over) :
    (∀ (now : ℚ) (sid pw color : String) (pts : Int),
      ref_press now sid pw color pts m = (m, [])) ∧
    operator_next_round m = (m, []) ∧
    operator_proceed_if_ready m = (m, []) := by
  refine ⟨?_, ?_, ?_⟩
  · intro now sid pw color pts
    unfold ref_press
    cases hc : parseColor color with
    | none => rfl
    | some c =>
        dsimp only
        split
        · rfl
        split
        · rfl
        rw [if_pos (by rw [h]; simp)]
  · unfold operator_next_round
    rw [if_pos h]
  · unfold operator_proceed_if_ready
    dsimp only
    rw [if_neg ?hcond]
    case hcond =>
      rintro ⟨-, -, hs | hs⟩ <;> rw [h] at hs <;> cases hs

/-- Witness for C5 in the concrete over state of the declare scenario. -/
theorem C5_witness :
    ref_press 0 "A" "1234" "red" 1 c5over = (c5over, []) ∧
    operator_next_round c5over = (c5over, []) ∧
    operator_proceed_if_ready c5over = (c5over, []) := by
  obtain ⟨h1, h2, h3⟩ := C5_amended c5over (by with_unfolding_all decide)
  exact ⟨h1 0 "A" "1234" "red" 1, h2, h3⟩

/-- Claim C7: the timer projection mutates nothing (in this embedding it
returns only a payload, mirroring that timer_payload in app.py never
writes to the match), and for a running timer with remaining R0 counted
from start instant T it reports max(0, R0 - (now - T)) at every instant
now at or after T, a value monotonically non-increasing in now. -/
theorem C7_theorem (m : Machine) (T R0 now1 now2 noww : ℚ)
    (hrun : m.timer.running = true) (hs : m.timer.lastStartedMono = some T)
    (hr : m.timer.remaining = R0) (h1 : T ≤ now1) (h12 : now1 ≤ now2) :
    (timer_payload now1 noww m).remaining = max 0 (R0 - (now1 - T)) ∧
    (timer_payload now2 noww m).remaining ≤ (timer_payload now1 noww m).remaining := by
  unfold timer_payload
  refine ⟨?_, ?_⟩ <;> simp only [hrun, hs, hr]
  exact max_le_max (le_refl 0) (by linarith)

/-- Witness for C7: running timer with remaining 120 started at 5,
projected at instants 10 and 20. -/
theorem C7_witness :
    (timer_payload 10 0 c7m).remaining = max 0 (120 - (10 - 5)) ∧
    (timer_payload 20 0 c7m).remaining ≤ (timer_payload 10 0 c7m).remaining :=
  C7_theorem c7m 5 120 10 20 0 rfl rfl rfl (by norm_num) (by norm_num)

/-- Claim C8: for every timer state (running states carrying a start
instant, the only ones the handlers produce), pausing at instant now and
restarting at any later instant leaves the stored remaining equal to the
remaining projected at the instant of the pause, and the subsequent
countdown continues from that value: d seconds after the restart the
projection reads max(0, remaining - d), independent of how long the
timer stayed paused. -/
theorem C8_theorem (m : Machine) (now nowS d noww : ℚ) (hns : now ≤ nowS) (hd : 0 ≤ d)
    (hok : m.timer.running = true → m.timer.lastStartedMono ≠ none) :
    ((timer_start nowS (timer_pause now m)).timer.remaining
      = (timer_pause now m).timer.remaining) ∧
    ((timer_pause now m).timer.remaining = (timer_payload now noww m).remaining) ∧
    ((timer_payload (nowS + d) noww (timer_start nowS (timer_pause now m))).remaining
      = max 0 ((timer_pause now m).timer.remaining - d)) := by
  have harith : nowS + d - nowS = d := by ring
  unfold timer_start timer_pause timer_payload Timer.startAt Timer.pauseAt
  cases hrb : m.timer.running with
  | false =>
      refine ⟨by simp [hrb], by simp [hrb], ?_⟩
      simp [hrb, harith]
  | true =>
      cases hsm : m.timer.lastStartedMono with
      | none => exact absurd hsm (hok hrb)
      | some s =>
          refine ⟨by simp [hrb, hsm], by simp [hrb, hsm], ?_⟩
          simp [hrb, hsm, harith]

/-- Witness for C8: pause the running timer of the C7 scenario at 10 and
restart at 30; 7 seconds later the countdown continues from the paused
value. -/
theorem C8_witness :
    ((timer_start 30 (timer_pause 10 c7m)).timer.remaining
      = (timer_pause 10 c7m).timer.remaining) ∧
    ((timer_pause 10 c7m).timer.remaining = (timer_payload 10 0 c7m).remaining) ∧
    ((timer_payload (30 + 7) 0 (timer_start 30 (timer_pause 10 c7m))).remaining
      = max 0 ((timer_pause 10 c7m).timer.remaining - 7)) :=
  C8_theorem c7m 10 30 7 0 (by norm_num) (by norm_num) (fun _ => Option.some_ne_none 5)

/-- Claim C9: the disconnect of a registered referee removes exactly its
roster entry, purges exactly its votes from the buffer, pauses the timer
(the pause transition applied to the current timer), and forces the
status to paused unless the match is over, in which case over is kept;
scores and round wins are untouched. -/
theorem C9_theorem (now : ℚ) (sid : String) (m : Machine)
    (h : m.remotes.any (fun e => e.1 = sid) = true) :
    ((on_disconnect now sid m).1.remotes = m.remotes.filter (fun e => e.1 ≠ sid)) ∧
    ((on_disconnect now sid m).1.voteBuffer = m.voteBuffer.filter (fun v => v.sid ≠ sid)) ∧
    ((on_disconnect now sid m).1.timer = m.timer.pauseAt now) ∧
    (m.status = Status.over → (on_disconnect now sid m).1.status = Status.over) ∧
    (m.status ≠ Status.over → (on_disconnect now sid m).1.status = Status.paused) ∧
    ((on_disconnect now sid m).1.scores = m.scores) ∧
    ((on_disconnect now sid m).1.roundWins = m.roundWins) := by
  unfold on_disconnect timer_pause
  rw [if_pos h]
  dsimp only
  split
  · rename_i hs
    exact ⟨rfl, rfl, rfl, fun hov => absurd hov hs, fun _ => rfl, rfl, rfl⟩
  · rename_i hs
    rw [Ne, not_not] at hs
    exact ⟨rfl, rfl, rfl, fun _ => hs, fun hns => absurd hs hns, rfl, rfl⟩

/-- Witness for C9: referee A disconnects from the running three-referee
scenario machine. -/
theorem C9_witness :
    ((on_disconnect 0 "A" c3m).1.remotes = c3m.remotes.filter (fun e => e.1 ≠ "A")) ∧
    ((on_disconnect 0 "A" c3m).1.voteBuffer = c3m.voteBuffer.filter (fun v => v.sid ≠ "A")) ∧
    ((on_disconnect 0 "A" c3m).1.status = Status.paused) := by
  obtain ⟨h1, h2, h3, h4, h5, h6, h7⟩ := C9_theorem 0 "A" c3m (by with_unfolding_all decide)
  exact ⟨h1, h2, h5 (by with_unfolding_all decide)⟩

/-- Claim C10: a referee press whose points value is not 1, 2 or 3, or
whose color is neither red nor blue, is silently discarded before any
other check: the handler returns the machine unchanged and emits
nothing, even when the match is running and the sender is registered. -/
theorem C10_theorem (now : ℚ) (sid pw color : String) (pts : Int) (m : Machine)
    (h : parseColor color = none ∨ ¬ (pts = 1 ∨ pts = 2 ∨ pts = 3)) :
    ref_press now sid pw color pts m = (m, []) := by
  unfold ref_press
  rcases h with h | h
  · simp only [h]
  · cases hc : parseColor color with
    | none => simp only [hc]
    | some c =>
        simp only [hc]
        rw [if_pos h]

/-- Witness for C10: a 5-point press from a registered referee on a
running match is discarded wholesale. -/
theorem C10_witness :
    c10m.status = Status.running ∧
    c10m.remotes.any (fun e => e.1 = "A") = true ∧
    ref_press 0 "A" "1234" "red" 5 c10m = (c10m, []) :=
  ⟨rfl, by with_unfolding_all decide,
    C10_theorem 0 "A" "1234" "red" 5 c10m (Or.inr (by norm_num))⟩

/-- Claim C3, counterexample: with referee A voting red 2 and blue 1 and
referee B voting red 2, the (red, 2) group wins with voter set A, B; the
award then removes every vote by A and B, so the blue 1 vote of A does
not remain in the buffer, contrary to the claim. -/
theorem C3_counterexample :
    pvb_selection 10 c3m = some ⟨2, 2, Color.red, ["A", "B"]⟩ ∧
    (⟨"A", Color.blue, 1, 10⟩ : Vote) ∈ windowVotes 10 c3m.voteBuffer ∧
    (process_vote_buffer 10 c3m).1.voteBuffer = [] := by
  refine ⟨?_, ?_, ?_⟩ <;> with_unfolding_all decide

/-- Claim C3 (amended): when evaluate applies a winning (color, points)
group, it increments scores[color] by the chosen points, pushes the
history entry, removes from the buffer every vote whose voter is in the
winning set, including those voters' votes for other colors and points
(votes by voters outside the winning set remain), and then runs the
point-gap finalize check on the resulting state. -/
theorem C3_amended (now : ℚ) (m : Machine) (g : Grp)
    (h : pvb_selection now m = some g) :
    ((process_vote_buffer now m).1 =
      (check_ptg_and_finalize_if_needed now (applyAward now m g)).1) ∧
    ((applyAward now m g).scores.get g.color = m.scores.get g.color + g.pts) ∧
    (∀ c, c ≠ g.color → (applyAward now m g).scores.get c = m.scores.get c) ∧
    (∀ v, v ∈ (applyAward now m g).voteBuffer ↔
      (v ∈ windowVotes now m.voteBuffer ∧ ¬ v.sid ∈ g.sids)) ∧
    ((applyAward now m g).history =
      (push_history (clean_vote_buffer now m) (HistEntry.score g.color g.pts)).history) ∧
    ((process_vote_buffer now m).1.voteBuffer = (applyAward now m g).voteBuffer) := by
  obtain ⟨heq, -⟩ := process_vote_buffer_some now m g h
  obtain ⟨hbuf, hsc, hhist, -⟩ := applyAward_fields now m g
  refine ⟨heq, ?_, ?_, ?_, hhist, ?_⟩
  · rw [hsc, ColorPair.get_set_self]
  · intro c hc
    rw [hsc, ColorPair.get_set, if_neg hc]
  · intro v
    rw [hbuf, List.mem_filter]
    simp
  · rw [heq]
    exact (check_ptg_keeps now _).1

/-- Witness for C3 in the three-vote scenario: the winning group is
(red, 2) with voters A and B, red gains 2, and the final buffer is the
award buffer. -/
theorem C3_witness :
    ((applyAward 10 c3m ⟨2, 2, Color.red, ["A", "B"]⟩).scores.get .red
      = c3m.scores.get .red + 2) ∧
    ((process_vote_buffer 10 c3m).1.voteBuffer
      = (applyAward 10 c3m ⟨2, 2, Color.red, ["A", "B"]⟩).voteBuffer) := by
  obtain ⟨h1, h2, h3, h4, h5, h6⟩ :=
    C3_amended 10 c3m ⟨2, 2, Color.red, ["A", "B"]⟩ (by with_unfolding_all decide)
  exact ⟨h2, h6⟩

/-- Claim C4, counterexample: from score red 1, an operator adjustment
of -5 clamps the score at 0; the immediate undo then sets red to
max(0, 0 - (-5)) = 5, not the pre-operation score 1. -/
theorem C4_counterexample :
    c4m1.scores.get .red = 1 ∧
    c4m2.scores.get .red = 0 ∧
    c4m2.history.getLast? = some (HistEntry.score Color.red (-5)) ∧
    (operator_undo c4m2).1.scores.get .red = 5 := by
  with_unfolding_all decide

/-- Claim C4 (amended): undo immediately after an operator score
adjustment restores the exact pre-operation scores whenever the
adjustment did not clamp at zero (pre-score + delta at least 0) and did
not trigger the point-gap finalize; when the adjustment clamped the
score to zero, undo instead yields max(0, -delta), which can exceed the
pre-operation score (see the counterexample); and undo on an empty
history reports a notice to the caller and mutates no match state. -/
theorem C4_amended (now : ℚ) (m : Machine) (c : Color) (d : Int) :
    ((0 ≤ m.scores.get c ∧ d ≠ 0 ∧ 0 ≤ m.scores.get c + d ∧
      |(m.scores.set c (m.scores.get c + d)).red
        - (m.scores.set c (m.scores.get c + d)).blue| < m.ptgGap) →
      (operator_undo (operator_adjust_score now (colorStr c) d m).1).1.scores = m.scores) ∧
    ((0 ≤ m.scores.get c ∧ m.scores.get c + d < 0 ∧
      |(m.scores.set c 0).red - (m.scores.set c 0).blue| < m.ptgGap) →
      (operator_undo (operator_adjust_score now (colorStr c) d m).1).1.scores.get c
        = max 0 (-d)) ∧
    (m.history = [] → operator_undo m = (m, [Emit.toast "Nothing to undo"])) := by
  refine ⟨?_, ?_, ?_⟩
  · rintro ⟨hg, hd0, hsum, hptg⟩
    have hmax : max 0 (m.scores.get c + d) = m.scores.get c + d := max_eq_right hsum
    unfold operator_adjust_score
    simp only [parseColor_colorStr]
    rw [if_neg hd0]
    dsimp only
    simp only [push_history_scores, push_history_ptgGap]
    rw [hmax]
    unfold check_ptg_and_finalize_if_needed
    dsimp only
    rw [if_neg (not_le.mpr hptg)]
    dsimp only
    unfold operator_undo
    simp only [push_history_getLast]
    rw [ColorPair.get_set_self, ColorPair.set_set]
    have h2 : max 0 (m.scores.get c + d - d) = m.scores.get c := by omega
    rw [h2, ColorPair.set_get]
  · rintro ⟨hg, hsum, hptg⟩
    have hd0 : d ≠ 0 := by omega
    have hmax : max 0 (m.scores.get c + d) = 0 := by omega
    unfold operator_adjust_score
    simp only [parseColor_colorStr]
    rw [if_neg hd0]
    dsimp only
    simp only [push_history_scores, push_history_ptgGap]
    rw [hmax]
    unfold check_ptg_and_finalize_if_needed
    dsimp only
    rw [if_neg (not_le.mpr hptg)]
    dsimp only
    unfold operator_undo
    simp only [push_history_getLast]
    rw [ColorPair.get_set_self, ColorPair.get_set_self]
    omega
  · intro h
    unfold operator_undo
    rw [h]
    rfl

/-- Witness for C4: on a fresh machine, +1 red then undo restores the
zero scores, and undo on the empty history is the reported no-op. -/
theorem C4_witness :
    ((operator_undo (operator_adjust_score 0 "red" 1 base3).1).1.scores = base3.scores) ∧
    operator_undo base3 = (base3, [Emit.toast "Nothing to undo"]) := by
  obtain ⟨h1, h2, h3⟩ := C4_amended 0 base3 .red 1
  exact ⟨h1 (by with_unfolding_all decide), h3 (by with_unfolding_all decide)⟩

/-- Claim C6: for any buffer, the quorum evaluation applies a winning
group exactly once and never twice from the same votes. Whenever some
(color, points) group has at least quorum distinct voters in the window,
a selection is made; the selected group meets quorum; its voter set is
the duplicate-free set of the voters of that (color, points) pair inside
the window (so repeat votes from one voter count once); the selected
group has the largest distinct-voter count among all quorum-reaching
groups, ties broken by the higher point value; and after the award every
contributing vote is removed, so no vote for the winning (color, points)
pair survives and the same votes can never produce a second award. -/
theorem C6_theorem (now : ℚ) (m : Machine) :
    (∀ c p, quorum_required m ≤ (groupVoters (windowVotes now m.voteBuffer) (c, p)).length →
      (pvb_selection now m).isSome) ∧
    (∀ g, pvb_selection now m = some g →
      quorum_required m ≤ g.count ∧
      g.count = g.sids.length ∧
      g.sids.Nodup ∧
      (∀ s, s ∈ g.sids ↔ ∃ v ∈ windowVotes now m.voteBuffer,
        v.sid = s ∧ v.color = g.color ∧ v.points = g.pts) ∧
      (∀ c p, quorum_required m ≤ (groupVoters (windowVotes now m.voteBuffer) (c, p)).length →
        (groupVoters (windowVotes now m.voteBuffer) (c, p)).length < g.count ∨
        ((groupVoters (windowVotes now m.voteBuffer) (c, p)).length = g.count ∧ p ≤ g.pts)) ∧
      ((process_vote_buffer now m).1.voteBuffer =
        (windowVotes now m.voteBuffer).filter (fun v => ¬ v.sid ∈ g.sids)) ∧
      (∀ v ∈ (process_vote_buffer now m).1.voteBuffer,
        ¬ (v.color = g.color ∧ v.points = g.pts))) := by
  constructor
  · intro c p hq
    exact pvb_selection_isSome now m c p hq
  · intro g hg
    obtain ⟨hq, hsids, hcnt, hmax⟩ := pvb_selection_some hg
    have hrem : (process_vote_buffer now m).1.voteBuffer =
        (windowVotes now m.voteBuffer).filter (fun v => ¬ v.sid ∈ g.sids) := by
      obtain ⟨heq, -⟩ := process_vote_buffer_some now m g hg
      rw [heq, (check_ptg_keeps now _).1]
      exact (applyAward_fields now m g).1
    have hmem : ∀ s, s ∈ g.sids ↔ ∃ v ∈ windowVotes now m.voteBuffer,
        v.sid = s ∧ v.color = g.color ∧ v.points = g.pts := by
      intro s
      rw [hsids]
      exact groupVoters_mem _ _ _
    refine ⟨hq, hcnt, ?_, hmem, ?_, hrem, ?_⟩
    · rw [hsids]
      exact groupVoters_nodup _ _
    · intro c p hcp
      rcases hmax (c, p) hcp with hlt | ⟨he, hle⟩
      · exact Or.inl hlt
      · exact Or.inr ⟨he, hle⟩
    · intro v hv
      rw [hrem] at hv
      obtain ⟨hvin, hvnot⟩ := List.mem_filter.mp hv
      rintro ⟨hvc, hvp⟩
      simp only [decide_eq_true_eq] at hvnot
      exact hvnot ((hmem v.sid).mpr ⟨v, hvin, rfl, hvc, hvp⟩)

/-- Witness for C6: referees A and B both call red 2 while A also calls
red 1; with quorum 2 the evaluation selects the (red, 2) group and no
red 2 vote survives the award. -/
theorem C6_witness :
    (pvb_selection 10 c6m).isSome ∧
    quorum_required c6m ≤ (⟨2, 2, Color.red, ["A", "B"]⟩ : Grp).count ∧
    (∀ v ∈ (process_vote_buffer 10 c6m).1.voteBuffer,
      ¬ (v.color = Color.red ∧ v.points = 2)) := by
  obtain ⟨hA, hB⟩ := C6_theorem 10 c6m
  have hsel : pvb_selection 10 c6m = some ⟨2, 2, Color.red, ["A", "B"]⟩ := by
    with_unfolding_all decide
  obtain ⟨k1, k2, k3, k4, k5, k6, k7⟩ := hB _ hsel
  exact ⟨hA Color.red 2 (by with_unfolding_all decide), k1, k7⟩


end ProTKD
